import Mathlib

/-!
Shallow embedding of the adaptive audio pipeline implemented by the
`AudioProcessor` class in `src/lib/audioWorker.ts`: echo synthesis
(`addEcho`), the pre/de-emphasis pair (`applyPreProcessing` /
`applyPostProcessing`), the scalar Kalman denoiser (`applyKalmanFilter`),
the chunked NLMS adaptive filter (`applyNLMSFilter`) and the metrics
functions (`calculateERLE`, `calculateSNR`, `calculateREA`).

Signals are `List ℚ` (exact arithmetic standing in for IEEE single
precision); dB values produced through `Math.log10` live in `ℝ` via
`Real.logb 10`.  Wall-clock readings (`performance.now()` differences) are
not computable from the input and are modelled as explicit parameters; the
`convergence` timing field, which only ever receives wall-clock values, is
carried in the metrics record but its update is likewise a parameter.
Out-of-range writes to a JS `Float32Array` are silently dropped, which
`List.set` (a no-op past the end of the list) models exactly; out-of-range
reads yield `undefined`, never exercised by the loops below except through
writes that are themselves dropped, so reads are modelled with `List.getD`.
-/

namespace AudioWorker

/-- Constant `kalmanGain = 0.05` of `AudioProcessor` (measurement noise). -/
def kalmanGain : ℚ := 0.05

/-- Constant `nlmsStepSize = 0.8` of `AudioProcessor`. -/
def nlmsStepSize : ℚ := 0.8

/-- Constant `filterLength = 1024` of `AudioProcessor`. -/
def filterLength : ℕ := 1024

/-- Constant `echoIntensity = 50` of `AudioProcessor` (percent). -/
def echoIntensity : ℚ := 50

/-- Constant `overlapFactor = 4` of `AudioProcessor`. -/
def overlapFactor : ℕ := 4

/-- The metrics record of `AudioProcessor` (all fields initialised to 0). -/
structure Metrics where
  erle : ℝ
  snr : ℝ
  rea : ℝ
  latency : ℝ
  convergence : ℝ

/-- The initial metrics record: every field is 0. -/
def initialMetrics : Metrics := ⟨0, 0, 0, 0, 0⟩

/-- The chunked for-loop pattern
`for (i = ·; i < len; i += chunk) for (j = i; j < min (i+chunk) len; j++) s = body j s`
shared by `addEcho`, `applyKalmanFilter`, `calculateERLE` and
`calculateREA` (each with its own `body`); `i` is the current outer index.
`fuel` bounds the number of outer iterations so the recursion is
structural (and hence kernel-reducible); every outer iteration advances
`i` by `chunk ≥ 1`, so `fuel = len` never runs out when started at 0. -/
def chunkedForAux {σ : Type} (fuel : ℕ) (len chunk : ℕ) (body : ℕ → σ → σ) (i : ℕ)
    (s : σ) : σ :=
  match fuel with
  | 0 => s
  | fuel + 1 =>
    if i < len then
      chunkedForAux fuel len chunk body (i + chunk)
        ((List.range' i (min (i + chunk) len - i)).foldl (fun acc j => body j acc) s)
    else s

/-- The chunked for-loop started at outer index 0. -/
def chunkedFor {σ : Type} (len chunk : ℕ) (body : ℕ → σ → σ) (s : σ) : σ :=
  chunkedForAux len len chunk body 0 s

/-- Accumulation part of `calculateERLE`: chunked (chunk size 256) sums of
squared original samples and squared processed samples, in that order. -/
def erleSums (original processed : List ℚ) : ℚ × ℚ :=
  chunkedFor original.length 256
    (fun j s =>
      (s.1 + original.getD j 0 * original.getD j 0,
       s.2 + processed.getD j 0 * processed.getD j 0))
    (0, 0)

/-- Constant `noiseFloor = 1e-12` used by `calculateERLE` and `calculateREA`. -/
def noiseFloor : ℚ := 1e-12

/-- Function `calculateERLE original processed = 10 * log10 ((Σ orig² + ε)/(Σ proc² + ε))`. -/
noncomputable def calculateERLE (original processed : List ℚ) : ℝ :=
  10 * Real.logb 10
    ((((erleSums original processed).1 + noiseFloor) /
      ((erleSums original processed).2 + noiseFloor) : ℚ))

/-- Accumulation part of `calculateREA`: chunked (chunk size 256) sums, the
processed-squared sum accumulated first as in the source. -/
def reaSums (original processed : List ℚ) : ℚ × ℚ :=
  chunkedFor original.length 256
    (fun j s =>
      (s.1 + processed.getD j 0 * processed.getD j 0,
       s.2 + original.getD j 0 * original.getD j 0))
    (0, 0)

/-- Function `calculateREA original processed = 20 * log10 ((Σ orig² + ε)/(Σ proc² + ε))`. -/
noncomputable def calculateREA (original processed : List ℚ) : ℝ :=
  20 * Real.logb 10
    ((((reaSums original processed).2 + noiseFloor) /
      ((reaSums original processed).1 + noiseFloor) : ℚ))

/-- Frame loop of `calculateSNR`: frames of 128 samples; a frame whose summed
squared energy exceeds 0.005 contributes to signal power, otherwise to
noise power.  Returns `(signalPower, noisePower)`. -/
def snrSumsAux (fuel : ℕ) (signal : List ℚ) (i : ℕ) (sp np : ℚ) : ℚ × ℚ :=
  match fuel with
  | 0 => (sp, np)
  | fuel + 1 =>
    if i < signal.length then
      let framePower := (((signal.drop i).take 128).map (fun v => v * v)).sum
      if framePower > 0.005 then
        snrSumsAux fuel signal (i + 128) (sp + framePower) np
      else
        snrSumsAux fuel signal (i + 128) sp (np + framePower)
    else (sp, np)

/-- Function `calculateSNR signal = 10 * log10 ((signalPower + 1e-10)/(noisePower + 1e-10))`. -/
noncomputable def calculateSNR (signal : List ℚ) : ℝ :=
  10 * Real.logb 10
    ((((snrSumsAux signal.length signal 0 0 0).1 + 1e-10) /
      ((snrSumsAux signal.length signal 0 0 0).2 + 1e-10) : ℚ))

/-- Signal computation of `addEcho`: `delayInSamples = floor(echoDelay * 44.1)`,
`intensity = echoIntensity / 100 = 0.5`; for each index `j`,
`output[j] = input[j]` and additionally `+= input[j - delayInSamples] * intensity`
when `j >= delayInSamples`, written by the chunked (chunk size 256) loop
into a fresh zero array.  `echoDelay` is the processor field set by
`setParameters`, passed here as a parameter. -/
def addEcho (audioData : List ℚ) (echoDelay : ℚ) : List ℚ :=
  let delayInSamples : ℤ := Int.floor (echoDelay * 44.1)
  let intensity : ℚ := echoIntensity / 100
  chunkedFor audioData.length 256
    (fun j out =>
      let base := audioData.getD j 0
      out.set j
        (if delayInSamples ≤ (j : ℤ) then
          base + audioData.getD ((j : ℤ) - delayInSamples).toNat 0 * intensity
        else base))
    (List.replicate audioData.length 0)

/-- The `addEcho` method as a whole: the signal computation plus its only
metrics effect, `metrics.latency = performance.now() - startTime`, whose
wall-clock value is the parameter `t`. -/
def addEchoMethod (m : Metrics) (t : ℝ) (audioData : List ℚ) (echoDelay : ℚ) :
    List ℚ × Metrics :=
  (addEcho audioData echoDelay, { m with latency := t })

/-- Inner loop of `applyPreProcessing` (pre-emphasis): given the previous input
sample, emit `x - 0.95 * prev` for each remaining sample. -/
def preEmphGo (prev : ℚ) : List ℚ → List ℚ
  | [] => []
  | x :: xs => (x - 0.95 * prev) :: preEmphGo x xs

/-- Function `applyPreProcessing`: `output[0] = input[0]`,
`output[i] = input[i] - 0.95 * input[i-1]` for `i ≥ 1` (empty input gives
empty output: the JS write `output[0] = input[0]` is out of range and is
dropped). -/
def applyPreProcessing : List ℚ → List ℚ
  | [] => []
  | x :: xs => x :: preEmphGo x xs

/-- Inner loop of `applyPostProcessing` (de-emphasis): given the previous
*output* sample, emit `x + 0.95 * prevOut` recursively. -/
def deEmphGo (prevOut : ℚ) : List ℚ → List ℚ
  | [] => []
  | x :: xs => (x + 0.95 * prevOut) :: deEmphGo (x + 0.95 * prevOut) xs

/-- Function `applyPostProcessing`: `output[0] = input[0]`,
`output[i] = input[i] + 0.95 * output[i-1]` for `i ≥ 1`. -/
def applyPostProcessing : List ℚ → List ℚ
  | [] => []
  | x :: xs => x :: deEmphGo x xs

/-- One per-sample update of `applyKalmanFilter` on the state
`(estimate, errorCovariance)` given input sample `x`:
`errorCovariance += 1e-5`; `g = errorCovariance / (errorCovariance + kalmanGain)`;
`estimate += g * (x - estimate)`; `errorCovariance = (1 - g) * errorCovariance`. -/
def kalmanSampleStep (st : ℚ × ℚ) (x : ℚ) : ℚ × ℚ :=
  let prediction := st.1
  let errorCovariance := st.2 + 0.00001
  let g := errorCovariance / (errorCovariance + kalmanGain)
  (prediction + g * (x - prediction), (1 - g) * errorCovariance)

/-- Function `applyKalmanFilter`: chunked (chunk size 256) per-sample loop; state is
`(estimate, errorCovariance)` initialised to `(0, 0.1)`, each step writes
the new estimate to `output[j]`. -/
def applyKalmanFilter (input : List ℚ) : List ℚ :=
  (chunkedFor input.length 256
    (fun j s =>
      let st := kalmanSampleStep s.1 (input.getD j 0)
      (st, s.2.set j st.1))
    ((0, 0.1), List.replicate input.length 0)).2

/-- Constant `stabilityFactor = 1e-8` of `applyNLMSFilter`. -/
def stabilityFactor : ℚ := 1e-8

/-- Constant `chunkSize = 128` of `applyNLMSFilter`. -/
def chunkSize : ℕ := 128

/-- Constant `overlapSize = floor (chunkSize / overlapFactor) = 32` of `applyNLMSFilter`. -/
def overlapSize : ℕ := chunkSize / overlapFactor

/-- The tapped-delay-line shift of `applyNLMSFilter`:
`buffer.copyWithin(1, 0); buffer[0] = x` drops the oldest tap and inserts
`x` most-recent-first. -/
def nlmsShift (buffer : List ℚ) (x : ℚ) : List ℚ :=
  x :: buffer.dropLast

/-- The prediction loop of `applyNLMSFilter`: `y = Σ_k weights[k] * buffer[k]`. -/
def dotProd (w b : List ℚ) : ℚ :=
  (List.zipWith (fun wk bk => wk * bk) w b).sum

/-- The power loop of `applyNLMSFilter`: `power = Σ_k buffer[k]²`. -/
def sumSq (b : List ℚ) : ℚ :=
  (b.map (fun v => v * v)).sum

/-- One inner-loop iteration of `applyNLMSFilter` on state
`(weights, buffer, output)`, processing sample `x` destined for output
index `idx`: shift the delay line, predict `y`, form `error = x - y`,
write `output[idx] = y` (the source emits the prediction `y`, the error is
used only for the weight update and the convergence test), compute the
power, the normalized step size `nlmsStepSize / (power + stabilityFactor)`
and update every weight by `step * error * buffer[k]`. -/
def nlmsSampleStep (st : List ℚ × List ℚ × List ℚ) (idx : ℕ) (x : ℚ) :
    List ℚ × List ℚ × List ℚ :=
  let b := nlmsShift st.2.1 x
  let y := dotProd st.1 b
  let error := x - y
  let out := st.2.2.set idx y
  let power := sumSq b
  let normalizedStepSize := nlmsStepSize / (power + stabilityFactor)
  let w := List.zipWith (fun wk bk => wk + normalizedStepSize * error * bk) st.1 b
  (w, b, out)

/-- The inner `for (j = 0; j < chunkSize; j++)` loop of `applyNLMSFilter`:
process the listed processing-buffer samples in order, writing to output
indices `idx, idx+1, …`. -/
def nlmsInner (xs : List ℚ) (idx : ℕ) (st : List ℚ × List ℚ × List ℚ) :
    List ℚ × List ℚ × List ℚ :=
  match xs with
  | [] => st
  | x :: rest => nlmsInner rest (idx + 1) (nlmsSampleStep st idx x)

/-- The processing buffer of one outer chunk of `applyNLMSFilter` as read
by the inner loop: `processingBuffer.fill(0)` then
`processingBuffer[j] = input[i + j]` for `j < end - i`, so the inner loop
reads the next `min chunkSize (len - i)` input samples followed by zero
padding up to `chunkSize` entries. -/
def nlmsChunkInput (input : List ℚ) (i : ℕ) : List ℚ :=
  (input.drop i).take chunkSize ++
    List.replicate (chunkSize - ((input.drop i).take chunkSize).length) 0

/-- The outer `for (i = 0; i < input.length; i += chunkSize - overlapSize)`
loop of `applyNLMSFilter`; `fuel` bounds the number of outer iterations so
the recursion is structural (each iteration advances `i` by
`chunkSize - overlapSize = 96 ≥ 1`, so `fuel = input.length` never runs
out when started at 0). -/
def nlmsOuter (fuel : ℕ) (input : List ℚ) (i : ℕ) (st : List ℚ × List ℚ × List ℚ) :
    List ℚ × List ℚ × List ℚ :=
  match fuel with
  | 0 => st
  | fuel + 1 =>
    if i < input.length then
      nlmsOuter fuel input (i + (chunkSize - overlapSize))
        (nlmsInner (nlmsChunkInput input i) i st)
    else st

/-- Full final state `(weights, buffer, output)` of `applyNLMSFilter`:
weights and tapped-delay buffer start as `filterLength` zeros, the output
array starts as `input.length` zeros.  (The `converged` flag and the
`convergence` metric it feeds carry wall-clock times and do not influence
the signal path.) -/
def applyNLMSFilterFinal (input : List ℚ) : List ℚ × List ℚ × List ℚ :=
  nlmsOuter input.length input 0
    (List.replicate filterLength 0, List.replicate filterLength 0,
     List.replicate input.length 0)

/-- Function `applyNLMSFilter`: the output signal of the NLMS stage. -/
def applyNLMSFilter (input : List ℚ) : List ℚ :=
  (applyNLMSFilterFinal input).2.2

/-- The plain single-pass per-sample NLMS recursion of spec §4.4 applied
exactly once to each input sample in order, no chunking: each step returns
the pair `(y, error)` of the prediction and the prediction error together
with the updated `(weights, buffer)` state; the state-update formulas are
those of `nlmsSampleStep`. -/
def nlmsPlainGo (w b : List ℚ) : List ℚ → List (ℚ × ℚ)
  | [] => []
  | x :: rest =>
    let b' := nlmsShift b x
    let y := dotProd w b'
    let error := x - y
    let power := sumSq b'
    let normalizedStepSize := nlmsStepSize / (power + stabilityFactor)
    let w' := List.zipWith (fun wk bk => wk + normalizedStepSize * error * bk) w b'
    (y, error) :: nlmsPlainGo w' b' rest

/-- Modelled from the spec §4.4 (steps 1–7): the plain per-sample NLMS
recursion whose emitted output sample is the prediction error
`error = x - y`, starting from all-zero weights and buffer. -/
def applyNLMSFilterSpec (input : List ℚ) : List ℚ :=
  (nlmsPlainGo (List.replicate filterLength 0) (List.replicate filterLength 0) input).map
    Prod.snd

/-- The plain per-sample NLMS recursion (same state updates) whose emitted
output sample is the prediction `y`, as the source's inner loop writes it;
used to compare the chunked implementation against a single pass. -/
def applyNLMSFilterPlainPred (input : List ℚ) : List ℚ :=
  (nlmsPlainGo (List.replicate filterLength 0) (List.replicate filterLength 0) input).map
    Prod.fst

/-- The `removeEcho` method: pre-emphasis → NLMS → de-emphasis; refreshes
`erle`, `rea` and `latency` (wall-clock latency is the parameter `t`). -/
noncomputable def removeEcho (m : Metrics) (t : ℝ) (audioData : List ℚ) :
    List ℚ × Metrics :=
  let postProcessed := applyPostProcessing (applyNLMSFilter (applyPreProcessing audioData))
  (postProcessed,
   { m with
      erle := calculateERLE audioData postProcessed
      rea := calculateREA audioData postProcessed
      latency := t })

/-- The `processNoiseAndEcho` method: pre-emphasis → Kalman → NLMS →
de-emphasis; refreshes `snr`, `erle`, `rea` and `latency`. -/
noncomputable def processNoiseAndEcho (m : Metrics) (t : ℝ) (audioData : List ℚ) :
    List ℚ × Metrics :=
  let postProcessed :=
    applyPostProcessing (applyNLMSFilter (applyKalmanFilter (applyPreProcessing audioData)))
  (postProcessed,
   { m with
      snr := calculateSNR audioData
      erle := calculateERLE audioData postProcessed
      rea := calculateREA audioData postProcessed
      latency := t })

/-! ### Generic loop lemmas -/

lemma chunkedForAux_eq {σ : Type} (len chunk : ℕ) (hc : 0 < chunk) (body : ℕ → σ → σ) :
    ∀ (fuel i : ℕ) (s : σ), len - i ≤ fuel →
      chunkedForAux fuel len chunk body i s =
        (List.range' i (len - i)).foldl (fun acc j => body j acc) s := by
  intro fuel
  induction fuel with
  | zero =>
    intro i s h
    have hz : len - i = 0 := by omega
    simp [chunkedForAux, hz, show ¬ i < len by omega]
  | succ fuel ih =>
    intro i s h
    by_cases hi : i < len
    · rw [chunkedForAux]
      simp only [hi, if_true]
      rw [ih (i + chunk) _ (by omega)]
      by_cases h2 : i + chunk ≤ len
      · have hm : min (i + chunk) len - i = chunk := by omega
        rw [hm, ← List.foldl_append,
          show List.range' i chunk ++ List.range' (i + chunk) (len - (i + chunk)) =
            List.range' i (len - i) by
              have := List.range'_append i chunk (len - (i + chunk)) 1
              simp only [one_mul] at this
              rw [this]; congr 1; omega]
      · have hm : min (i + chunk) len - i = len - i := by omega
        have hz : len - (i + chunk) = 0 := by omega
        rw [hm, hz]
        simp [List.range']
    · have hz : len - i = 0 := by omega
      rw [chunkedForAux]
      simp [hi, hz, List.range']

lemma chunkedFor_eq {σ : Type} (len chunk : ℕ) (hc : 0 < chunk) (body : ℕ → σ → σ)
    (s : σ) :
    chunkedFor len chunk body s = (List.range len).foldl (fun acc j => body j acc) s := by
  rw [chunkedFor, chunkedForAux_eq len chunk hc body len 0 s (by omega),
    List.range_eq_range']
  simp

lemma foldl_invariant {σ α : Type*} (P : σ → Prop) (f : σ → α → σ)
    (hf : ∀ s a, P s → P (f s a)) :
    ∀ (l : List α) (s : σ), P s → P (l.foldl f s) := by
  intro l
  induction l with
  | nil => intro s hs; simpa using hs
  | cons x xs ih => intro s hs; exact ih (f s x) (hf s x hs)

lemma foldl_pair_sums (f g : ℕ → ℚ) :
    ∀ (l : List ℕ) (a b : ℚ),
      l.foldl (fun s j => (s.1 + f j, s.2 + g j)) (a, b) =
        (a + (l.map f).sum, b + (l.map g).sum) := by
  intro l
  induction l with
  | nil => intro a b; simp
  | cons x xs ih => intro a b; simp [ih, add_assoc]

lemma take_set_succ {α : Type*} :
    ∀ (out : List α) (i : ℕ) (y : α), i < out.length →
      (out.set i y).take (i + 1) = out.take i ++ [y]
  | [], i, y, h => by simp at h
  | a :: as, 0, y, _ => by simp
  | a :: as, i + 1, y, h => by
    simp only [List.set_cons_succ, List.take_succ_cons, List.cons_append]
    rw [take_set_succ as i y (by simpa using h)]

lemma foldl_set_range' {α : Type*} (v : ℕ → α) :
    ∀ (m i : ℕ) (out : List α), out.length = i + m →
      (List.range' i m).foldl (fun acc j => acc.set j (v j)) out =
        out.take i ++ (List.range' i m).map v := by
  intro m
  induction m with
  | zero =>
    intro i out h
    have hi : i = out.length := by omega
    rw [hi, List.take_length]
    simp [List.range']
  | succ m ih =>
    intro i out h
    rw [List.range'_succ]
    simp only [List.foldl_cons, List.map_cons]
    rw [ih (i + 1) (out.set i (v i)) (by simp [h]; omega),
      take_set_succ out i (v i) (by omega)]
    simp

lemma foldl_set_range_map {α : Type*} (v : ℕ → α) (n : ℕ) (out : List α)
    (h : out.length = n) :
    (List.range n).foldl (fun acc j => acc.set j (v j)) out = (List.range n).map v := by
  rw [List.range_eq_range', foldl_set_range' v n 0 out (by omega)]
  simp

lemma getD_map_range {α : Type*} [Inhabited α] (v : ℕ → α) (n i : ℕ) (hi : i < n)
    (d : α) : ((List.range n).map v).getD i d = v i := by
  rw [List.getD_eq_getElem?_getD, List.getElem?_eq_getElem (by simpa using hi)]
  simp

lemma getD_replicate_zero (n j : ℕ) : (List.replicate n (0 : ℚ)).getD j 0 = 0 := by
  rcases lt_or_le j n with h | h
  · rw [List.getD_eq_getElem?_getD, List.getElem?_eq_getElem (by simpa using h)]
    simp
  · rw [List.getD_eq_getElem?_getD, List.getElem?_eq_none (by simpa using h)]
    rfl

/-! ### NLMS helper lemmas -/

lemma filterLength_pos : 0 < filterLength := by norm_num [filterLength]

lemma nlmsSampleStep_def (w b out : List ℚ) (idx : ℕ) (x : ℚ) :
    nlmsSampleStep (w, b, out) idx x =
      (List.zipWith
        (fun wk bk => wk +
          nlmsStepSize / (sumSq (nlmsShift b x) + stabilityFactor) *
            (x - dotProd w (nlmsShift b x)) * bk) w (nlmsShift b x),
       nlmsShift b x,
       out.set idx (dotProd w (nlmsShift b x))) := rfl

lemma nlmsPlainGo_cons (w b : List ℚ) (x : ℚ) (rest : List ℚ) :
    nlmsPlainGo w b (x :: rest) =
      (dotProd w (nlmsShift b x), x - dotProd w (nlmsShift b x)) ::
        nlmsPlainGo
          (List.zipWith
            (fun wk bk => wk +
              nlmsStepSize / (sumSq (nlmsShift b x) + stabilityFactor) *
                (x - dotProd w (nlmsShift b x)) * bk) w (nlmsShift b x))
          (nlmsShift b x) rest := rfl

lemma nlmsShift_length (b : List ℚ) (x : ℚ) (h : 1 ≤ b.length) :
    (nlmsShift b x).length = b.length := by
  simp [nlmsShift, List.length_dropLast]
  omega

lemma dotProd_cons (a x : ℚ) (w b : List ℚ) :
    dotProd (a :: w) (x :: b) = a * x + dotProd w b := by
  simp [dotProd]

lemma dotProd_zero_left : ∀ (n : ℕ) (b : List ℚ), dotProd (List.replicate n 0) b = 0
  | 0, b => by simp [dotProd]
  | n + 1, [] => by simp [dotProd]
  | n + 1, x :: xs => by
    rw [List.replicate_succ, dotProd_cons, dotProd_zero_left n xs]
    simp

lemma sumSq_cons (x : ℚ) (b : List ℚ) : sumSq (x :: b) = x * x + sumSq b := by
  simp [sumSq]

lemma sumSq_replicate_zero (n : ℕ) : sumSq (List.replicate n 0) = 0 := by
  simp [sumSq, List.map_replicate]

lemma sumSq_nonneg (b : List ℚ) : 0 ≤ sumSq b := by
  refine List.sum_nonneg ?_
  intro x hx
  obtain ⟨v, -, rfl⟩ := List.mem_map.mp hx
  exact mul_self_nonneg v

lemma zipWith_const_left {α : Type*} :
    ∀ (w b : List α), w.length ≤ b.length → List.zipWith (fun wk (_ : α) => wk) w b = w
  | [], _, _ => by simp
  | _ :: _, [], h => by simp at h
  | a :: as, c :: cs, h => by
    simp only [List.zipWith_cons_cons, List.cons.injEq, true_and]
    exact zipWith_const_left as cs (by simpa using h)

lemma replicate_set_last (y : ℚ) : ∀ (n : ℕ),
    (List.replicate (n + 1) (0 : ℚ)).set n y = List.replicate n 0 ++ [y]
  | 0 => by simp
  | n + 1 => by
    rw [List.replicate_succ, List.set_cons_succ, replicate_set_last y n,
      List.replicate_succ]
    simp

lemma nlmsInner_cons (x : ℚ) (rest : List ℚ) (idx : ℕ) (st : List ℚ × List ℚ × List ℚ) :
    nlmsInner (x :: rest) idx st = nlmsInner rest (idx + 1) (nlmsSampleStep st idx x) := rfl

lemma nlmsInner_append : ∀ (xs ys : List ℚ) (idx : ℕ) (st : List ℚ × List ℚ × List ℚ),
    nlmsInner (xs ++ ys) idx st = nlmsInner ys (idx + xs.length) (nlmsInner xs idx st)
  | [], ys, idx, st => by simp [nlmsInner]
  | x :: xs, ys, idx, st => by
    rw [List.cons_append, nlmsInner_cons, nlmsInner_cons,
      nlmsInner_append xs ys (idx + 1) (nlmsSampleStep st idx x)]
    have h1 : idx + 1 + xs.length = idx + (x :: xs).length := by
      simp only [List.length_cons]
      omega
    rw [h1]

lemma nlmsSampleStep_out (st : List ℚ × List ℚ × List ℚ) (idx : ℕ) (x : ℚ) :
    (nlmsSampleStep st idx x).2.2 =
      st.2.2.set idx (dotProd st.1 (nlmsShift st.2.1 x)) := rfl

lemma nlmsInner_out_length : ∀ (xs : List ℚ) (idx : ℕ) (st : List ℚ × List ℚ × List ℚ),
    (nlmsInner xs idx st).2.2.length = st.2.2.length
  | [], idx, st => rfl
  | x :: xs, idx, st => by
    rw [nlmsInner_cons, nlmsInner_out_length xs (idx + 1) (nlmsSampleStep st idx x),
      nlmsSampleStep_out, List.length_set]

lemma nlmsInner_out_oob : ∀ (xs : List ℚ) (idx : ℕ) (st : List ℚ × List ℚ × List ℚ),
    st.2.2.length ≤ idx → (nlmsInner xs idx st).2.2 = st.2.2
  | [], idx, st, _ => rfl
  | x :: xs, idx, st, h => by
    rw [nlmsInner_cons,
      nlmsInner_out_oob xs (idx + 1) (nlmsSampleStep st idx x)
        (by rw [nlmsSampleStep_out, List.length_set]; omega),
      nlmsSampleStep_out, List.set_eq_of_length_le h]

lemma nlmsInner_eq_plain :
    ∀ (xs : List ℚ) (w b out : List ℚ) (idx : ℕ), out.length = idx + xs.length →
      (nlmsInner xs idx (w, b, out)).2.2 =
        out.take idx ++ (nlmsPlainGo w b xs).map Prod.fst
  | [], w, b, out, idx, h => by
    simp only [List.length_nil, Nat.add_zero] at h
    simp only [nlmsInner, nlmsPlainGo, List.map_nil, List.append_nil]
    rw [← h, List.take_length]
  | x :: rest, w, b, out, idx, h => by
    rw [nlmsInner_cons, nlmsSampleStep_def,
      nlmsInner_eq_plain rest _ _ _ (idx + 1)
        (by rw [List.length_set]; simp at h; omega),
      nlmsPlainGo_cons]
    simp only [List.map_cons]
    rw [take_set_succ out idx _ (by simp at h; omega)]
    simp

lemma nlmsOuter_step (fuel : ℕ) (input : List ℚ) (i : ℕ)
    (st : List ℚ × List ℚ × List ℚ) (h : i < input.length) :
    nlmsOuter (fuel + 1) input i st =
      nlmsOuter fuel input (i + (chunkSize - overlapSize))
        (nlmsInner (nlmsChunkInput input i) i st) := by
  simp [nlmsOuter, h]

lemma nlmsOuter_stop (fuel : ℕ) (input : List ℚ) (i : ℕ)
    (st : List ℚ × List ℚ × List ℚ) (h : ¬ i < input.length) :
    nlmsOuter fuel input i st = st := by
  cases fuel <;> simp [nlmsOuter, h]

lemma chunkAdvance_eq : chunkSize - overlapSize = 96 := by
  norm_num [chunkSize, overlapSize, overlapFactor]

/-! ### Zero propagation through the NLMS stage -/

lemma nlmsShift_zero_zero :
    nlmsShift (List.replicate filterLength 0) 0 = List.replicate filterLength 0 := by
  rw [nlmsShift, List.dropLast_replicate, ← List.replicate_succ]
  norm_num [filterLength]

lemma nlmsSampleStep_zero (b out : List ℚ) (idx : ℕ) (hb : b.length = filterLength) :
    nlmsSampleStep (List.replicate filterLength 0, b, out) idx 0 =
      (List.replicate filterLength 0, nlmsShift b 0, out.set idx 0) := by
  rw [nlmsSampleStep_def, dotProd_zero_left]
  simp only [sub_zero, mul_zero, zero_mul, add_zero, zero_sub, neg_zero, sub_self]
  rw [zipWith_const_left _ _ (by
    rw [nlmsShift_length b 0 (by rw [hb]; exact filterLength_pos), hb,
      List.length_replicate])]

lemma nlmsInner_zero_zero : ∀ (k idx n : ℕ),
    nlmsInner (List.replicate k 0) idx
      (List.replicate filterLength 0, List.replicate filterLength 0,
       List.replicate n 0) =
      (List.replicate filterLength 0, List.replicate filterLength 0,
       List.replicate n 0)
  | 0, idx, n => rfl
  | k + 1, idx, n => by
    rw [List.replicate_succ, nlmsInner_cons,
      nlmsSampleStep_zero _ _ idx (List.length_replicate _ _),
      nlmsShift_zero_zero, List.set_replicate_self, nlmsInner_zero_zero k (idx + 1) n]

lemma nlmsChunkInput_zero (n i : ℕ) :
    nlmsChunkInput (List.replicate n 0) i = List.replicate chunkSize 0 := by
  rw [nlmsChunkInput, List.drop_replicate, List.take_replicate,
    List.length_replicate, List.append_replicate_replicate]
  congr 1
  omega

lemma nlmsOuter_zero : ∀ (fuel i n : ℕ),
    nlmsOuter fuel (List.replicate n 0) i
      (List.replicate filterLength 0, List.replicate filterLength 0,
       List.replicate n 0) =
      (List.replicate filterLength 0, List.replicate filterLength 0,
       List.replicate n 0)
  | 0, i, n => rfl
  | fuel + 1, i, n => by
    by_cases h : i < (List.replicate (n := n) (0 : ℚ)).length
    · rw [nlmsOuter_step fuel _ i _ h, nlmsChunkInput_zero, nlmsInner_zero_zero,
        nlmsOuter_zero fuel _ n]
    · exact nlmsOuter_stop _ _ _ _ h

lemma applyNLMSFilter_zero (n : ℕ) :
    applyNLMSFilter (List.replicate n 0) = List.replicate n 0 := by
  rw [applyNLMSFilter, applyNLMSFilterFinal, List.length_replicate, nlmsOuter_zero]

/-! ### The single-pass recursion and short inputs -/

lemma nlmsPlainGo_length : ∀ (xs w b : List ℚ), (nlmsPlainGo w b xs).length = xs.length
  | [], _, _ => rfl
  | x :: rest, w, b => by
    rw [nlmsPlainGo_cons, List.length_cons, nlmsPlainGo_length rest, List.length_cons]

lemma applyNLMSFilter_short (input : List ℚ)
    (h : input.length ≤ chunkSize - overlapSize) :
    applyNLMSFilter input = applyNLMSFilterPlainPred input := by
  have h96 : input.length ≤ 96 := by rw [chunkAdvance_eq] at h; exact h
  rcases Nat.eq_zero_or_pos input.length with h0 | h0
  · obtain rfl : input = [] := List.length_eq_zero.mp h0
    rfl
  · obtain ⟨f, hf⟩ : ∃ f, input.length = f + 1 := ⟨input.length - 1, by omega⟩
    have hchunk : nlmsChunkInput input 0 =
        input ++ List.replicate (chunkSize - input.length) 0 := by
      rw [nlmsChunkInput, List.drop_zero,
        List.take_of_length_le (by norm_num [chunkSize]; omega)]
    have houter : nlmsOuter input.length input 0
        (List.replicate filterLength 0, List.replicate filterLength 0,
         List.replicate input.length 0) =
        nlmsInner (nlmsChunkInput input 0) 0
          (List.replicate filterLength 0, List.replicate filterLength 0,
           List.replicate input.length 0) := by
      rw [hf, nlmsOuter_step f input 0 _ (by omega), chunkAdvance_eq,
        nlmsOuter_stop f input _ _ (by omega)]
    rw [applyNLMSFilter, applyNLMSFilterFinal, houter, hchunk, nlmsInner_append,
      Nat.zero_add,
      nlmsInner_out_oob _ input.length _ (by rw [nlmsInner_out_length]; simp),
      nlmsInner_eq_plain input _ _ _ 0 (by simp),
      applyNLMSFilterPlainPred]
    simp

lemma dotProd_single_nonzero_head (c x : ℚ) (t : List ℚ) :
    dotProd (c :: List.replicate (filterLength - 1) 0) (x :: t) = c * x := by
  rw [dotProd_cons, dotProd_zero_left]
  simp

/-! ### Concrete evaluation of the chunked loop on `replicate 96 0 ++ [1]` -/

lemma dropLast_one_pattern (p q : ℕ) :
    (List.replicate p (0 : ℚ) ++ 1 :: List.replicate (q + 1) 0).dropLast =
      List.replicate p 0 ++ 1 :: List.replicate q 0 := by
  rw [List.dropLast_append_of_ne_nil _ (by simp)]
  congr 1
  rw [show (1 : ℚ) :: List.replicate (q + 1) (0 : ℚ) =
      [1] ++ List.replicate (q + 1) 0 from rfl,
    List.dropLast_append_of_ne_nil _ (by simp), List.dropLast_replicate]
  simp

lemma nlmsShift_pattern (p q : ℕ) :
    nlmsShift (List.replicate p (0 : ℚ) ++ 1 :: List.replicate (q + 1) 0) 0 =
      List.replicate (p + 1) 0 ++ 1 :: List.replicate q 0 := by
  rw [nlmsShift, dropLast_one_pattern, ← List.cons_append, ← List.replicate_succ]

lemma dotProd_zero_head_pattern (c : ℚ) (p q : ℕ) (hp : 1 ≤ p) :
    dotProd (c :: List.replicate (filterLength - 1) 0)
      (List.replicate p 0 ++ 1 :: List.replicate q 0) = 0 := by
  obtain ⟨p', rfl⟩ : ∃ p', p = p' + 1 := ⟨p - 1, by omega⟩
  rw [List.replicate_succ, List.cons_append, dotProd_cons, dotProd_zero_left]
  simp

lemma nlmsInner_pad (c : ℚ) : ∀ (k p q idx : ℕ) (out : List ℚ),
    out.length ≤ idx → k ≤ q → p + 1 + q = filterLength →
    nlmsInner (List.replicate k 0) idx
      (c :: List.replicate (filterLength - 1) 0,
       List.replicate p 0 ++ 1 :: List.replicate q 0, out) =
      (c :: List.replicate (filterLength - 1) 0,
       List.replicate (p + k) 0 ++ 1 :: List.replicate (q - k) 0, out)
  | 0, p, q, idx, out, _, _, _ => by simp [nlmsInner]
  | k + 1, p, q, idx, out, hidx, hk, hpq => by
    obtain ⟨q', rfl⟩ : ∃ q', q = q' + 1 := ⟨q - 1, by omega⟩
    rw [List.replicate_succ, nlmsInner_cons, nlmsSampleStep_def, nlmsShift_pattern,
      dotProd_zero_head_pattern c (p + 1) q' (by omega)]
    simp only [sub_self, mul_zero, zero_mul, add_zero, sub_zero]
    rw [zipWith_const_left _ _ (by
      simp only [List.length_cons, List.length_append, List.length_replicate]
      omega)]
    rw [List.set_eq_of_length_le hidx]
    rw [nlmsInner_pad c k (p + 1) q' (idx + 1) out (by omega) (by omega) (by omega)]
    have e1 : p + 1 + k = p + (k + 1) := by omega
    have e2 : q' - k = q' + 1 - (k + 1) := by omega
    rw [e1, e2]

lemma replicate_eq_zero_cons :
    List.replicate filterLength (0 : ℚ) = 0 :: List.replicate (filterLength - 1) 0 := by
  rw [← List.replicate_succ]
  norm_num [filterLength]

lemma nlmsStep96 :
    nlmsSampleStep
      (List.replicate filterLength 0, List.replicate filterLength 0,
       List.replicate 97 0) 96 1 =
      (nlmsStepSize / (1 + stabilityFactor) :: List.replicate (filterLength - 1) 0,
       1 :: List.replicate (filterLength - 1) 0,
       List.replicate 97 0) := by
  rw [nlmsSampleStep_def, dotProd_zero_left]
  have hshift : nlmsShift (List.replicate filterLength (0 : ℚ)) 1 =
      1 :: List.replicate (filterLength - 1) 0 := by
    rw [nlmsShift, List.dropLast_replicate]
  rw [hshift, sumSq_cons, sumSq_replicate_zero, List.set_replicate_self]
  simp only [sub_zero, mul_one, one_mul, add_zero]
  rw [replicate_eq_zero_cons, List.zipWith_cons_cons, List.zipWith_replicate]
  simp

lemma nlmsPlainGo_zeros : ∀ (k : ℕ) (b rest : List ℚ), b.length = filterLength →
    nlmsPlainGo (List.replicate filterLength 0) b (List.replicate k 0 ++ rest) =
      List.replicate k ((0 : ℚ), (0 : ℚ)) ++
        nlmsPlainGo (List.replicate filterLength 0)
          ((fun bb => nlmsShift bb 0)^[k] b) rest
  | 0, b, rest, hb => by simp
  | k + 1, b, rest, hb => by
    have hlen : (nlmsShift b 0).length = filterLength := by
      rw [nlmsShift_length b 0 (by rw [hb]; exact filterLength_pos), hb]
    rw [List.replicate_succ, List.cons_append, nlmsPlainGo_cons, dotProd_zero_left]
    simp only [sub_self, sub_zero, mul_zero, zero_mul, add_zero]
    rw [zipWith_const_left _ _ (by rw [hlen, List.length_replicate]),
      nlmsPlainGo_zeros k (nlmsShift b 0) rest hlen,
      List.replicate_succ, Function.iterate_succ_apply]
    simp

lemma nlmsInner_nil (idx : ℕ) (st : List ℚ × List ℚ × List ℚ) :
    nlmsInner [] idx st = st := rfl

lemma nlmsOuter_step' (fuel : ℕ) (input : List ℚ) (i : ℕ)
    (st : List ℚ × List ℚ × List ℚ) (hf : 1 ≤ fuel) (h : i < input.length) :
    nlmsOuter fuel input i st =
      nlmsOuter (fuel - 1) input (i + (chunkSize - overlapSize))
        (nlmsInner (nlmsChunkInput input i) i st) := by
  obtain ⟨f, rfl⟩ : ∃ f, fuel = f + 1 := ⟨fuel - 1, by omega⟩
  simp [nlmsOuter, h]

lemma nlmsChunkInput_ce0 :
    nlmsChunkInput (List.replicate 96 (0 : ℚ) ++ [1]) 0 =
      (List.replicate 96 (0 : ℚ) ++ [1]) ++ List.replicate 31 0 := by
  rw [nlmsChunkInput, List.drop_zero, List.take_of_length_le (by simp [chunkSize])]
  simp [chunkSize]

lemma nlmsChunkInput_ce96 :
    nlmsChunkInput (List.replicate 96 (0 : ℚ) ++ [1]) 96 =
      [1] ++ List.replicate 127 0 := by
  rw [nlmsChunkInput, List.drop_left' (by simp),
    List.take_of_length_le (by norm_num [chunkSize])]
  simp [chunkSize]

lemma nlmsInner_ce_chunk0 :
    nlmsInner ((List.replicate 96 (0 : ℚ) ++ [1]) ++ List.replicate 31 0) 0
      (List.replicate filterLength 0, List.replicate filterLength 0,
       List.replicate 97 0) =
      (nlmsStepSize / (1 + stabilityFactor) :: List.replicate (filterLength - 1) 0,
       List.replicate 31 0 ++ 1 :: List.replicate (filterLength - 1 - 31) 0,
       List.replicate 97 0) := by
  rw [nlmsInner_append, nlmsInner_append, nlmsInner_zero_zero 96 0 97]
  simp only [List.length_append, List.length_replicate, List.length_cons,
    List.length_nil, Nat.zero_add]
  norm_num
  rw [nlmsInner_cons, nlmsInner_nil, nlmsStep96,
    show (1 : ℚ) :: List.replicate (filterLength - 1) 0 =
      List.replicate 0 (0 : ℚ) ++ 1 :: List.replicate (filterLength - 1) 0 from rfl,
    nlmsInner_pad _ 31 0 (filterLength - 1) 97 _ (by simp)
      (by norm_num [filterLength]) (by norm_num [filterLength])]

lemma nlmsStep96_chunk1_out :
    (nlmsSampleStep
      (nlmsStepSize / (1 + stabilityFactor) :: List.replicate (filterLength - 1) 0,
       List.replicate 31 0 ++ 1 :: List.replicate (filterLength - 1 - 31) 0,
       List.replicate 97 0) 96 1).2.2 =
      List.replicate 96 0 ++ [nlmsStepSize / (1 + stabilityFactor)] := by
  rw [nlmsSampleStep_out]
  have hsh : nlmsShift
      (List.replicate 31 (0 : ℚ) ++ 1 :: List.replicate (filterLength - 1 - 31) 0) 1 =
      1 :: (List.replicate 31 0 ++ 1 :: List.replicate 991 0) := by
    rw [nlmsShift]
    norm_num [filterLength]
    rw [show (992 : ℕ) = 991 + 1 from rfl, dropLast_one_pattern]
  rw [hsh, dotProd_cons, dotProd_zero_left,
    show List.replicate 97 (0 : ℚ) = List.replicate (96 + 1) 0 from rfl,
    replicate_set_last]
  norm_num

lemma applyNLMSFilter_ce :
    applyNLMSFilter (List.replicate 96 (0 : ℚ) ++ [1]) =
      List.replicate 96 0 ++ [nlmsStepSize / (1 + stabilityFactor)] := by
  have hlen : (List.replicate 96 (0 : ℚ) ++ [1]).length = 97 := by simp
  rw [applyNLMSFilter, applyNLMSFilterFinal, hlen,
    nlmsOuter_step' 97 _ 0 _ (by norm_num) (by simp), chunkAdvance_eq,
    show (97 : ℕ) - 1 = 96 from rfl, show (0 : ℕ) + 96 = 96 from rfl,
    nlmsOuter_step' 96 _ 96 _ (by norm_num) (by simp), chunkAdvance_eq,
    show (96 : ℕ) - 1 = 95 from rfl, show (96 : ℕ) + 96 = 192 from rfl,
    nlmsOuter_stop 95 _ 192 _ (by simp),
    nlmsChunkInput_ce0, nlmsChunkInput_ce96, nlmsInner_ce_chunk0,
    nlmsInner_append,
    show (96 : ℕ) + ([1] : List ℚ).length = 97 by simp,
    nlmsInner_cons, nlmsInner_nil,
    nlmsInner_out_oob _ 97 _ (by
      rw [nlmsSampleStep_out, List.length_set, List.length_replicate]),
    nlmsStep96_chunk1_out]

lemma applyNLMSFilterSpec_ce :
    applyNLMSFilterSpec (List.replicate 96 (0 : ℚ) ++ [1]) =
      List.replicate 96 0 ++ [1] := by
  rw [applyNLMSFilterSpec, nlmsPlainGo_zeros 96 _ [1] (List.length_replicate _ _),
    @Function.iterate_fixed _ (fun bb => nlmsShift bb 0)
      (List.replicate filterLength 0) nlmsShift_zero_zero 96,
    nlmsPlainGo_cons, dotProd_zero_left]
  simp [nlmsPlainGo]

lemma applyNLMSFilterPlainPred_ce :
    applyNLMSFilterPlainPred (List.replicate 96 (0 : ℚ) ++ [1]) =
      List.replicate 96 0 ++ [0] := by
  rw [applyNLMSFilterPlainPred, nlmsPlainGo_zeros 96 _ [1] (List.length_replicate _ _),
    @Function.iterate_fixed _ (fun bb => nlmsShift bb 0)
      (List.replicate filterLength 0) nlmsShift_zero_zero 96,
    nlmsPlainGo_cons, dotProd_zero_left]
  simp [nlmsPlainGo]

/-! ### Length invariants of the NLMS state -/

lemma nlmsSampleStep_lengths (st : List ℚ × List ℚ × List ℚ) (idx : ℕ) (x : ℚ)
    (hw : st.1.length = filterLength) (hb : st.2.1.length = filterLength) :
    (nlmsSampleStep st idx x).1.length = filterLength ∧
      (nlmsSampleStep st idx x).2.1.length = filterLength := by
  obtain ⟨w, b, out⟩ := st
  simp only at hw hb
  have hs : (nlmsShift b x).length = filterLength := by
    rw [nlmsShift_length b x (by have := filterLength_pos; omega), hb]
  rw [nlmsSampleStep_def]
  refine ⟨?_, hs⟩
  rw [List.length_zipWith, hw, hs]
  simp

lemma nlmsInner_lengths : ∀ (xs : List ℚ) (idx : ℕ) (st : List ℚ × List ℚ × List ℚ),
    st.1.length = filterLength → st.2.1.length = filterLength →
      (nlmsInner xs idx st).1.length = filterLength ∧
        (nlmsInner xs idx st).2.1.length = filterLength
  | [], idx, st, hw, hb => ⟨hw, hb⟩
  | x :: rest, idx, st, hw, hb => by
    rw [nlmsInner_cons]
    obtain ⟨hw', hb'⟩ := nlmsSampleStep_lengths st idx x hw hb
    exact nlmsInner_lengths rest (idx + 1) _ hw' hb'

lemma nlmsOuter_lengths : ∀ (fuel : ℕ) (input : List ℚ) (i : ℕ)
    (st : List ℚ × List ℚ × List ℚ),
    st.1.length = filterLength → st.2.1.length = filterLength →
      (nlmsOuter fuel input i st).1.length = filterLength ∧
        (nlmsOuter fuel input i st).2.1.length = filterLength
  | 0, _, _, _, hw, hb => ⟨hw, hb⟩
  | fuel + 1, input, i, st, hw, hb => by
    by_cases h : i < input.length
    · rw [nlmsOuter_step fuel input i st h]
      obtain ⟨hw', hb'⟩ := nlmsInner_lengths (nlmsChunkInput input i) i st hw hb
      exact nlmsOuter_lengths fuel input _ _ hw' hb'
    · rw [nlmsOuter_stop _ input i st h]
      exact ⟨hw, hb⟩

/-! ### Emphasis pair round trip -/

lemma deEmphGo_preEmphGo : ∀ (xs : List ℚ) (p : ℚ),
    deEmphGo p (preEmphGo p xs) = xs
  | [], _ => rfl
  | x :: xs, p => by
    rw [preEmphGo, deEmphGo, sub_add_cancel, deEmphGo_preEmphGo xs x]

/-! ### Zero propagation through the other stages -/

lemma preEmphGo_zero : ∀ (n : ℕ), preEmphGo 0 (List.replicate n 0) = List.replicate n 0
  | 0 => rfl
  | n + 1 => by
    rw [List.replicate_succ, preEmphGo]
    simp only [mul_zero, sub_zero]
    rw [preEmphGo_zero n]

lemma applyPreProcessing_zero (n : ℕ) :
    applyPreProcessing (List.replicate n 0) = List.replicate n 0 := by
  cases n with
  | zero => rfl
  | succ n =>
    rw [List.replicate_succ, applyPreProcessing, preEmphGo_zero]

lemma deEmphGo_zero : ∀ (n : ℕ), deEmphGo 0 (List.replicate n 0) = List.replicate n 0
  | 0 => rfl
  | n + 1 => by
    rw [List.replicate_succ, deEmphGo]
    simp only [mul_zero, add_zero, zero_add]
    rw [deEmphGo_zero n]

lemma applyPostProcessing_zero (n : ℕ) :
    applyPostProcessing (List.replicate n 0) = List.replicate n 0 := by
  cases n with
  | zero => rfl
  | succ n =>
    rw [List.replicate_succ, applyPostProcessing, deEmphGo_zero]

lemma kalmanSampleStep_def (e p x : ℚ) :
    kalmanSampleStep (e, p) x =
      (e + (p + 0.00001) / (p + 0.00001 + kalmanGain) * (x - e),
       (1 - (p + 0.00001) / (p + 0.00001 + kalmanGain)) * (p + 0.00001)) := rfl

lemma applyKalmanFilter_zero (n : ℕ) :
    applyKalmanFilter (List.replicate n 0) = List.replicate n 0 := by
  rw [applyKalmanFilter, List.length_replicate, chunkedFor_eq _ 256 (by norm_num)]
  have h := foldl_invariant
    (fun s : (ℚ × ℚ) × List ℚ => s.1.1 = 0 ∧ s.2 = List.replicate n 0)
    (fun s j =>
      ((kalmanSampleStep s.1 ((List.replicate n (0 : ℚ)).getD j 0)),
       s.2.set j (kalmanSampleStep s.1 ((List.replicate n (0 : ℚ)).getD j 0)).1))
    ?_ (List.range n) ((0, 0.1), List.replicate n 0) ⟨rfl, rfl⟩
  · exact h.2
  · rintro ⟨⟨e, p⟩, out⟩ j ⟨he, hout⟩
    simp only at he hout
    subst he hout
    dsimp only
    rw [getD_replicate_zero, kalmanSampleStep_def]
    constructor
    · simp
    · simp [List.set_replicate_self]

/-! ### Kalman error covariance invariant -/

lemma kalman_ec_step_nonneg (e p x : ℚ) (hp : 0 ≤ p) :
    0 ≤ (kalmanSampleStep (e, p) x).2 := by
  rw [kalmanSampleStep_def]
  have h1 : (0 : ℚ) ≤ p + 0.00001 := by positivity
  have h2 : (0 : ℚ) < p + 0.00001 + kalmanGain := by
    rw [kalmanGain]
    positivity
  have h3 : (p + 0.00001) / (p + 0.00001 + kalmanGain) ≤ 1 := by
    rw [div_le_one h2]
    rw [kalmanGain]
    linarith
  exact mul_nonneg (by linarith) h1

lemma kalman_ec_fold_nonneg : ∀ (xs : List ℚ) (st : ℚ × ℚ), 0 ≤ st.2 →
    0 ≤ (xs.foldl kalmanSampleStep st).2
  | [], _, h => h
  | x :: xs, st, h => by
    rw [List.foldl_cons]
    exact kalman_ec_fold_nonneg xs _ (by
      obtain ⟨e, p⟩ := st
      exact kalman_ec_step_nonneg e p x h)

/-! ### The echo synthesizer as a pointwise map -/

lemma addEcho_eq_map (audioData : List ℚ) (echoDelay : ℚ) :
    addEcho audioData echoDelay =
      (List.range audioData.length).map (fun (j : ℕ) =>
        if Int.floor (echoDelay * 44.1) ≤ (j : ℤ) then
          audioData.getD j 0 +
            audioData.getD ((j : ℤ) - Int.floor (echoDelay * 44.1)).toNat 0 *
              (echoIntensity / 100)
        else audioData.getD j 0) := by
  simp only [addEcho]
  rw [chunkedFor_eq _ 256 (by norm_num)]
  exact foldl_set_range_map _ _ _ (List.length_replicate _ _)

lemma addEcho_length (audioData : List ℚ) (echoDelay : ℚ) :
    (addEcho audioData echoDelay).length = audioData.length := by
  rw [addEcho_eq_map]
  simp

lemma addEcho_zero (n : ℕ) (echoDelay : ℚ) :
    addEcho (List.replicate n 0) echoDelay = List.replicate n 0 := by
  rw [addEcho_eq_map]
  simp only [getD_replicate_zero, zero_mul, add_zero, ite_self, List.length_replicate]
  rw [List.map_const', List.length_range]

/-! ### Metric sums -/

lemma erleSums_eq (original processed : List ℚ) :
    erleSums original processed =
      (((List.range original.length).map
          (fun j => original.getD j 0 * original.getD j 0)).sum,
       ((List.range original.length).map
          (fun j => processed.getD j 0 * processed.getD j 0)).sum) := by
  rw [erleSums, chunkedFor_eq _ 256 (by norm_num)]
  have h := foldl_pair_sums (fun j => original.getD j 0 * original.getD j 0)
    (fun j => processed.getD j 0 * processed.getD j 0)
    (List.range original.length) 0 0
  simpa using h

lemma reaSums_eq (original processed : List ℚ) :
    reaSums original processed =
      (((List.range original.length).map
          (fun j => processed.getD j 0 * processed.getD j 0)).sum,
       ((List.range original.length).map
          (fun j => original.getD j 0 * original.getD j 0)).sum) := by
  rw [reaSums, chunkedFor_eq _ 256 (by norm_num)]
  have h := foldl_pair_sums (fun j => processed.getD j 0 * processed.getD j 0)
    (fun j => original.getD j 0 * original.getD j 0)
    (List.range original.length) 0 0
  simpa using h

lemma erleSums_zero (n m : ℕ) :
    erleSums (List.replicate n 0) (List.replicate m 0) = (0, 0) := by
  rw [erleSums_eq]
  simp [getD_replicate_zero]

lemma reaSums_zero (n m : ℕ) :
    reaSums (List.replicate n 0) (List.replicate m 0) = (0, 0) := by
  rw [reaSums_eq]
  simp [getD_replicate_zero]

lemma calculateERLE_zero (n m : ℕ) :
    calculateERLE (List.replicate n 0) (List.replicate m 0) = 0 := by
  rw [calculateERLE, erleSums_zero]
  norm_num [noiseFloor, Real.logb_one]

lemma calculateREA_zero (n m : ℕ) :
    calculateREA (List.replicate n 0) (List.replicate m 0) = 0 := by
  rw [calculateREA, reaSums_zero]
  norm_num [noiseFloor, Real.logb_one]

lemma calculateSNR_nil : calculateSNR [] = 0 := by
  rw [calculateSNR]
  norm_num [snrSumsAux, Real.logb_one]

lemma silence_invariance_all (n : ℕ) (d : ℚ) (m : Metrics) (t : ℝ) :
    addEcho (List.replicate n 0) d = List.replicate n 0 ∧
    (removeEcho m t (List.replicate n 0)).1 = List.replicate n 0 ∧
    (removeEcho m t (List.replicate n 0)).2.erle = 0 ∧
    (removeEcho m t (List.replicate n 0)).2.rea = 0 ∧
    (processNoiseAndEcho m t (List.replicate n 0)).1 = List.replicate n 0 ∧
    (processNoiseAndEcho m t (List.replicate n 0)).2.erle = 0 ∧
    (processNoiseAndEcho m t (List.replicate n 0)).2.rea = 0 := by
  have hpipe1 : applyPostProcessing (applyNLMSFilter
      (applyPreProcessing (List.replicate n 0))) = List.replicate n 0 := by
    rw [applyPreProcessing_zero, applyNLMSFilter_zero, applyPostProcessing_zero]
  have hpipe2 : applyPostProcessing (applyNLMSFilter (applyKalmanFilter
      (applyPreProcessing (List.replicate n 0)))) = List.replicate n 0 := by
    rw [applyPreProcessing_zero, applyKalmanFilter_zero, applyNLMSFilter_zero,
      applyPostProcessing_zero]
  refine ⟨addEcho_zero n d, ?_, ?_, ?_, ?_, ?_, ?_⟩
  · simp only [removeEcho]
    rw [hpipe1]
  · simp only [removeEcho]
    rw [hpipe1, calculateERLE_zero]
  · simp only [removeEcho]
    rw [hpipe1, calculateREA_zero]
  · simp only [processNoiseAndEcho]
    rw [hpipe2]
  · simp only [processNoiseAndEcho]
    rw [hpipe2, calculateERLE_zero]
  · simp only [processNoiseAndEcho]
    rw [hpipe2, calculateREA_zero]

lemma nlmsStep_ratio_ne_one : nlmsStepSize / (1 + stabilityFactor) ≠ 1 := by
  norm_num [nlmsStepSize, stabilityFactor]

lemma nlmsStep_ratio_ne_zero : nlmsStepSize / (1 + stabilityFactor) ≠ 0 := by
  norm_num [nlmsStepSize, stabilityFactor]

/-! ## Claim theorems -/

/-- Claim C1: the spec states that the NLMS stage emits the prediction error
`error = x - y` as the output sample at each per-sample step; the code at
`audioWorker.ts` line 241 instead writes the prediction `y` into the output
(`output[i + j] = y`), using `error` only for the weight update and the
convergence test.  At the failing input `[1]` the implemented filter emits
`[0]` (the prediction from all-zero weights) while the per-sample recursion
of spec §4.4 emits the error `[1]`. -/
theorem c1_nlms_emits_prediction_not_error :
    applyNLMSFilter [1] = [0] ∧ applyNLMSFilterSpec [1] = [1] := by
  constructor
  · rw [applyNLMSFilter_short [1]
      (by norm_num [chunkSize, overlapSize, overlapFactor]),
      applyNLMSFilterPlainPred, nlmsPlainGo_cons, dotProd_zero_left]
    simp [nlmsPlainGo]
  · rw [applyNLMSFilterSpec, nlmsPlainGo_cons, dotProd_zero_left]
    simp [nlmsPlainGo]

/-- Claim C2 (counterexample): at the concrete input
`replicate 96 0 ++ [1]` (length 97, just past one outer advance of
`chunkSize - overlapSize = 96`), the chunked implementation does not
reproduce the plain per-sample recursion of steps 1–7: the second outer
chunk re-processes sample index 96 with the already-updated weights and
overwrites `output[96]` with `0.8/(1 + 1e-8)`, while the plain recursion
emits the error `1` there (and the prediction-emitting single pass emits
`0`). -/
theorem c2_chunking_counterexample :
    applyNLMSFilter (List.replicate 96 0 ++ [1]) ≠
        applyNLMSFilterSpec (List.replicate 96 0 ++ [1]) ∧
      applyNLMSFilter (List.replicate 96 0 ++ [1]) ≠
        applyNLMSFilterPlainPred (List.replicate 96 0 ++ [1]) := by
  rw [applyNLMSFilter_ce, applyNLMSFilterSpec_ce, applyNLMSFilterPlainPred_ce]
  constructor
  · intro h
    have h2 := List.append_cancel_left h
    simp only [List.cons.injEq, and_true] at h2
    exact nlmsStep_ratio_ne_one h2
  · intro h
    have h2 := List.append_cancel_left h
    simp only [List.cons.injEq, and_true] at h2
    exact nlmsStep_ratio_ne_zero h2

/-- Claim C2 (amended): for every input of length at most
`chunkSize - overlapSize = 96` the outer loop runs a single chunk and the
emitted output equals the plain single-pass per-sample recursion
(steps 1–7 of §4.4) with the prediction `y` — not the error — emitted at
each step; for longer inputs the outer loop re-processes the final
`overlapSize` samples of each chunk, altering both the adaptive state and
previously written output values. -/
theorem c2_nlms_single_chunk_is_single_pass (input : List ℚ)
    (h : input.length ≤ chunkSize - overlapSize) :
    applyNLMSFilter input = applyNLMSFilterPlainPred input :=
  applyNLMSFilter_short input h

/-- Witness for the amended C2 at the concrete input `[1]`. -/
theorem c2_nlms_single_chunk_is_single_pass_witness :
    ([1] : List ℚ).length ≤ chunkSize - overlapSize ∧
      applyNLMSFilter [1] = applyNLMSFilterPlainPred [1] :=
  ⟨by norm_num [chunkSize, overlapSize, overlapFactor],
   c2_nlms_single_chunk_is_single_pass [1]
     (by norm_num [chunkSize, overlapSize, overlapFactor])⟩

/-- Claim C3: `addEcho` keeps the length, copies `input[i]` for
`i < delaySamples` and adds `input[i - delaySamples] * 0.5` for
`i ≥ delaySamples`, where `delaySamples = ⌊echoDelayMs * 44.1⌋`; for
`delayMs = 100` the delay is 4410 samples. -/
theorem c3_addEcho_spec (input : List ℚ) (d : ℚ) :
    (addEcho input d).length = input.length ∧
    (∀ i : ℕ, i < input.length →
      ((i : ℤ) < Int.floor (d * 44.1) →
        (addEcho input d).getD i 0 = input.getD i 0) ∧
      (Int.floor (d * 44.1) ≤ (i : ℤ) →
        (addEcho input d).getD i 0 =
          input.getD i 0 +
            input.getD ((i : ℤ) - Int.floor (d * 44.1)).toNat 0 * (1 / 2))) ∧
    Int.floor ((100 : ℚ) * 44.1) = 4410 := by
  refine ⟨addEcho_length input d, ?_, ?_⟩
  · intro i hi
    rw [addEcho_eq_map, getD_map_range _ _ _ hi]
    constructor
    · intro hlt
      rw [if_neg (by omega)]
    · intro hge
      rw [if_pos hge]
      norm_num [echoIntensity]
  · rw [show (100 : ℚ) * 44.1 = ((4410 : ℤ) : ℚ) by norm_num, Int.floor_intCast]

/-- Witness for C3 at the concrete input `[4, 2]` with `echoDelay = 0`
(`delaySamples = 0`, so every index receives the echo term). -/
theorem c3_addEcho_spec_witness :
    (addEcho [4, 2] 0).length = 2 ∧ (0 : ℕ) < ([4, 2] : List ℚ).length ∧
      (addEcho [4, 2] 0).getD 0 0 = (4 : ℚ) + 4 * (1 / 2) := by
  have hfl : Int.floor ((0 : ℚ) * 44.1) = 0 := by
    rw [show (0 : ℚ) * 44.1 = ((0 : ℤ) : ℚ) by norm_num, Int.floor_intCast]
  refine ⟨(c3_addEcho_spec [4, 2] 0).1, by norm_num, ?_⟩
  have h := ((c3_addEcho_spec [4, 2] 0).2.1 0 (by norm_num)).2 (by rw [hfl]; norm_num)
  rw [hfl] at h
  simpa using h

/-- Claim C4: the de-emphasis filter applied to the pre-emphasis filter is
the identity on every signal, in exact arithmetic. -/
theorem c4_emphasis_roundtrip (x : List ℚ) :
    applyPostProcessing (applyPreProcessing x) = x := by
  cases x with
  | nil => rfl
  | cons a xs => rw [applyPreProcessing, applyPostProcessing, deEmphGo_preEmphGo]

/-- Claim C5: an all-zero input of any length passes through `addEcho`,
`removeEcho` and `processNoiseAndEcho` as an all-zero output of the same
length, and both dB metrics computed by the latter two are
`10·log10 1 = 0` and `20·log10 1 = 0` since the guarded energy ratio is
`(0 + ε)/(0 + ε) = 1`. -/
theorem c5_silence_invariance (n : ℕ) (d : ℚ) (m : Metrics) (t : ℝ) :
    addEcho (List.replicate n 0) d = List.replicate n 0 ∧
    (removeEcho m t (List.replicate n 0)).1 = List.replicate n 0 ∧
    (removeEcho m t (List.replicate n 0)).2.erle = 0 ∧
    (removeEcho m t (List.replicate n 0)).2.rea = 0 ∧
    (processNoiseAndEcho m t (List.replicate n 0)).1 = List.replicate n 0 ∧
    (processNoiseAndEcho m t (List.replicate n 0)).2.erle = 0 ∧
    (processNoiseAndEcho m t (List.replicate n 0)).2.rea = 0 :=
  silence_invariance_all n d m t

/-- Claim C6: in the Kalman denoiser the error covariance stays
nonnegative before and after every per-sample update, for every input
signal and every number of processed samples, starting from the initial
value `0.1` (the per-sample update adds `1e-5`, forms the gain and scales
by `1 - gain`). -/
theorem c6_kalman_error_covariance_nonneg (input : List ℚ) (n : ℕ) :
    0 ≤ ((input.take n).foldl kalmanSampleStep (0, 0.1)).2 :=
  kalman_ec_fold_nonneg (input.take n) (0, 0.1) (by norm_num)

/-- Claim C7: `addEcho` refreshes only the `latency` metric field: `snr`,
`erle`, `rea` and `convergence` keep their previous values, and on a fresh
processor every field starts at 0, so `getMetrics` after `addEcho` returns
the prior `snr`. -/
theorem c7_addEcho_metrics_isolation (m : Metrics) (t : ℝ) (input : List ℚ)
    (d : ℚ) :
    (addEchoMethod m t input d).2.snr = m.snr ∧
    (addEchoMethod m t input d).2.erle = m.erle ∧
    (addEchoMethod m t input d).2.rea = m.rea ∧
    (addEchoMethod m t input d).2.convergence = m.convergence ∧
    (addEchoMethod m t input d).2.latency = t ∧
    initialMetrics.snr = 0 ∧ initialMetrics.erle = 0 ∧
    initialMetrics.rea = 0 ∧ initialMetrics.convergence = 0 :=
  ⟨rfl, rfl, rfl, rfl, rfl, rfl, rfl, rfl, rfl⟩

/-- Claim C8: `calculateREA` accumulates exactly the sums of squares that
`calculateERLE` accumulates and reports the same guarded ratio at
`20·log10` instead of `10·log10`, so `rea = 2 * erle` for every pair of
signals, in exact arithmetic. -/
theorem c8_rea_eq_two_mul_erle (original processed : List ℚ) :
    calculateREA original processed = 2 * calculateERLE original processed := by
  rw [calculateREA, calculateERLE, reaSums_eq, erleSums_eq]
  ring

/-- Claim C9: the empty input flows through `addEcho`, `removeEcho` and
`processNoiseAndEcho` as the empty output with no fault, and the dB metric
fields computed by those calls (`erle`/`rea`, plus `snr` for the combined
path) are set to the neutral value 0. -/
theorem c9_empty_input (m : Metrics) (t : ℝ) (d : ℚ) :
    addEcho [] d = [] ∧
    (removeEcho m t []).1 = [] ∧
    (removeEcho m t []).2.erle = 0 ∧
    (removeEcho m t []).2.rea = 0 ∧
    (processNoiseAndEcho m t []).1 = [] ∧
    (processNoiseAndEcho m t []).2.snr = 0 ∧
    (processNoiseAndEcho m t []).2.erle = 0 ∧
    (processNoiseAndEcho m t []).2.rea = 0 := by
  have h5 := silence_invariance_all 0 d m t
  simp only [List.replicate_zero] at h5
  obtain ⟨h1, h2, h3, h4, h6, h7, h8⟩ := h5
  refine ⟨h1, h2, h3, h4, h6, ?_, h7, h8⟩
  simp only [processNoiseAndEcho]
  rw [calculateSNR_nil]

/-- Claim C10: the NLMS normalized-step denominator
`power + stabilityFactor` is strictly positive for every tapped-delay
buffer (the power is a sum of squares and `stabilityFactor = 1e-8 > 0`),
so the division is never by zero, and after processing any input of
length ≥ 1 the weight vector is a well-defined vector of `filterLength`
rationals (in this exact-arithmetic model no NaN/Inf can arise). -/
theorem c10_nlms_denominator_positive (input : List ℚ) (b : List ℚ)
    (_h : 1 ≤ input.length) :
    0 < sumSq b + stabilityFactor ∧
      (applyNLMSFilterFinal input).1.length = filterLength := by
  constructor
  · have h1 := sumSq_nonneg b
    have h2 : (0 : ℚ) < stabilityFactor := by norm_num [stabilityFactor]
    linarith
  · rw [applyNLMSFilterFinal]
    exact (nlmsOuter_lengths _ input 0 _ (by simp) (by simp)).1

/-- Witness for C10 at the concrete input `[1]` and buffer `[]`. -/
theorem c10_nlms_denominator_positive_witness :
    1 ≤ ([1] : List ℚ).length ∧
      (0 < sumSq [] + stabilityFactor ∧
        (applyNLMSFilterFinal [1]).1.length = filterLength) :=
  ⟨by norm_num, c10_nlms_denominator_positive [1] [] (by norm_num)⟩

end AudioWorker
